import Mathlib

/-
  Verification of the csv-sidekick core: the tabular view engine
  (filter / search / sort over rows, src/components/Dashboard.tsx and
  src/components/DataTable.tsx) and the step-sequencing workflow engine
  (src/components/WorkflowProcessor.tsx).

  The embedding is shallow: JS scalar cell values become the `Value`
  inductive, rows become association lists, and the React component state
  (useState fields of WorkflowProcessor plus the observer callbacks) becomes
  the `WState` record.  JS numbers that occur here are integers, modelled by
  `Int`/`Nat`.  The asynchronous `processStep` is modelled as a function from
  state to final state plus the list of intermediate states (one per setState
  call, i.e. one per suspension point of the 200ms-tick schedule).
-/

namespace Sidekick

/-! ## Strings: JS `includes` / `toLowerCase` -/

/-- `charsStartWith hay needle`: does `hay` start with `needle`? -/
def charsStartWith : List Char → List Char → Bool
  | _, [] => true
  | [], _ :: _ => false
  | a :: as, b :: bs => a == b && charsStartWith as bs

/-- `charsContain hay needle`: does `needle` occur contiguously in `hay`?
(JS `String.prototype.includes`; the empty needle always occurs). -/
def charsContain : List Char → List Char → Bool
  | [], needle => needle.isEmpty
  | a :: as, needle => charsStartWith (a :: as) needle || charsContain as needle

/-- JS `hay.includes(needle)`. -/
def strIncludes (hay needle : String) : Bool :=
  charsContain hay.data needle.data

/-- JS `s.toLowerCase()` (ASCII-faithful). -/
def lowerStr (s : String) : String :=
  String.mk (s.data.map Char.toLower)

/-! ## Data model: `DataRow` (Dashboard.tsx line 13) -/

/-- A scalar cell value: `string | number | boolean | null`
(`export type DataRow = Record<string, string | number | boolean | null>`). -/
inductive Value where
  | str (s : String)
  | num (n : Int)
  | boolean (b : Bool)
  | null
  deriving DecidableEq

/-- A row: an association list from column name to scalar value
(a JS object `Record<string, ...>`). -/
def Row : Type := List (String × Value)

instance : DecidableEq Row := by
  unfold Row
  infer_instance

/-- JS property access `row[col]`: `none` models `undefined`. -/
def getCell (row : Row) (col : String) : Option Value :=
  (List.find? (fun c => c.fst == col) row).map (fun c => c.snd)

/-- JS `String(v)` on a scalar: `String(null) = "null"`,
`String(true) = "true"`, `String(false) = "false"`, numbers print decimally. -/
def stringOfValue : Value → String
  | .str s => s
  | .num n => toString n
  | .boolean true => "true"
  | .boolean false => "false"
  | .null => "null"

/-- JS falsiness of a cell value (`null`, `false`, `0` and `""` are falsy). -/
def isFalsy : Value → Bool
  | .str s => s == ""
  | .num n => n == 0
  | .boolean b => !b
  | .null => true

/-- `String(row[filter.column] || "")` (Dashboard.tsx line 50): a missing
cell (`undefined`) or a falsy cell value is coerced to `""` before
stringification. -/
def filterCellString (row : Row) (col : String) : String :=
  match getCell row col with
  | none => ""
  | some v => if isFalsy v then "" else stringOfValue v

/-- `ColumnFilter = { column: string, value: string }` (Dashboard.tsx). -/
structure ColumnFilter where
  column : String
  value : String
  deriving DecidableEq

/-- One column filter applied to one row (Dashboard.tsx lines 48-52):
an empty filter value is a no-op, otherwise a case-insensitive substring
test against `String(row[filter.column] || "")`. -/
def matchesFilter (row : Row) (f : ColumnFilter) : Bool :=
  if f.value == "" then true
  else strIncludes (lowerStr (filterCellString row f.column)) (lowerStr f.value)

/-- The search clause (Dashboard.tsx lines 55-59): an empty search term
passes, otherwise some cell's `String(value)` contains the term
case-insensitively (note: no falsy coercion here, unlike the filters). -/
def passesSearch (row : Row) (term : String) : Bool :=
  if term == "" then true
  else row.any (fun cell => strIncludes (lowerStr (stringOfValue cell.snd)) (lowerStr term))

/-- The row predicate of `filteredData`: all column filters (AND) and the
search clause. -/
def rowPasses (filters : List ColumnFilter) (term : String) (row : Row) : Bool :=
  filters.all (matchesFilter row) && passesSearch row term

/-- `filteredData` (Dashboard.tsx lines 46-62). -/
def filteredData (rows : List Row) (filters : List ColumnFilter) (term : String) : List Row :=
  rows.filter (rowPasses filters term)

/-- Modelled from the claim C2 wording (not from the source): "the stringified
value of the row's cell", with one canonical stringification `String(v)`
for both the filter clause and the search clause; a missing cell stringifies
to the empty string.  This is the spec-side predicate compared against the
code's `filteredData`. -/
def specCellString (row : Row) (col : String) : String :=
  match getCell row col with
  | none => ""
  | some v => stringOfValue v

/-- Modelled from the claim C2 wording: row kept iff every non-empty filter's
value occurs case-insensitively in the stringified cell, and a non-empty
search term occurs case-insensitively in some stringified cell. -/
def specKeepsRow (row : Row) (filters : List ColumnFilter) (term : String) : Bool :=
  filters.all (fun f =>
      f.value == "" || strIncludes (lowerStr (specCellString row f.column)) (lowerStr f.value))
    && (term == "" || row.any (fun cell =>
      strIncludes (lowerStr (stringOfValue cell.snd)) (lowerStr term)))

/-- The amended C2 keep-condition: clause (a) tests the filter value against
`String(row[col] || "")` — falsy cells (null, false, 0, "") and missing cells
are matched as the empty string — while clause (b) searches `String(value)`
directly (null stringifies to "null"). -/
def amendedKeepsRow (row : Row) (filters : List ColumnFilter) (term : String) : Bool :=
  filters.all (fun f =>
      f.value == "" || strIncludes (lowerStr (filterCellString row f.column)) (lowerStr f.value))
    && (term == "" || row.any (fun cell =>
      strIncludes (lowerStr (stringOfValue cell.snd)) (lowerStr term)))

/-! ## Sorting (DataTable.tsx lines 42-66) -/

inductive SortDir where
  | asc
  | desc
  deriving DecidableEq

/-- Three-way lexicographic comparison of char lists, the model of
`localeCompare` (sign-accurate for the default locale on ASCII). -/
def charsCompare : List Char → List Char → Int
  | [], [] => 0
  | [], _ :: _ => -1
  | _ :: _, [] => 1
  | a :: as, b :: bs => if a < b then -1 else if b < a then 1 else charsCompare as bs

/-- `valueA == null` in JS is true for both `null` and `undefined`. -/
def isNullish : Option Value → Bool
  | none => true
  | some .null => true
  | some _ => false

/-- The sort comparator body (DataTable.tsx lines 45-65), given a sort column
and direction: nulls to the direction-dependent extreme, numbers numerically,
everything else as lowercased strings via `localeCompare`. -/
def rowCompare (col : String) (dir : SortDir) (a b : Row) : Int :=
  let va := getCell a col
  let vb := getCell b col
  if isNullish va then (if dir = .asc then -1 else 1)
  else if isNullish vb then (if dir = .asc then 1 else -1)
  else
    match va, vb with
    | some (.num x), some (.num y) => if dir = .asc then x - y else y - x
    | va', vb' =>
      let strA := lowerStr (stringOfValue ((va').getD .null))
      let strB := lowerStr (stringOfValue ((vb').getD .null))
      if dir = .asc then charsCompare strA.data strB.data
      else charsCompare strB.data strA.data

/-- Insert into a sorted list, keeping the inserted (earlier) element before
elements it ties with: the stable-sort insertion step. -/
def insertRow {α : Type} (le : α → α → Bool) (x : α) : List α → List α
  | [] => [x]
  | y :: ys => if le x y then x :: y :: ys else y :: insertRow le x ys

/-- Stable insertion sort, the model of the host's stable `Array.prototype.sort`. -/
def insertionSort {α : Type} (le : α → α → Bool) : List α → List α
  | [] => []
  | x :: xs => insertRow le x (insertionSort le xs)

/-- `sortedData` (DataTable.tsx line 42): when no sort column/direction is
set the comparator returns 0 everywhere and the stable sort is the identity,
modelled directly. -/
def sortedData (data : List Row) : Option String → Option SortDir → List Row
  | some c, some d => insertionSort (fun a b => rowCompare c d a b ≤ 0) data
  | _, _ => data

/-! ## Preset quick filters (FilterBar.tsx lines 41-45, 75-82) -/

/-- The preset list: each entry is a display name and the literal filter
value it produces for a chosen column. -/
def presetFilters : List (String × (String → ColumnFilter)) :=
  [ ("Non-empty values", fun c => ⟨c, "[^]"⟩)
  , ("Empty values", fun c => ⟨c, "^$"⟩)
  , ("Numeric values", fun c => ⟨c, "^[0-9]"⟩)
  ]

/-- `applyPresetFilter` (FilterBar.tsx lines 75-82): appends the preset's
filter for the column to the current filter list (no-op when no column is
selected; the UI only passes indices 0..2). -/
def applyPresetFilter (col : String) (idx : Nat) (current : List ColumnFilter) :
    List ColumnFilter :=
  if col == "" then current
  else
    match presetFilters.get? idx with
    | some p => current ++ [p.snd col]
    | none => current

/-! ## Workflow engine (WorkflowProcessor.tsx)

The component state is `steps`, `currentStepId` and `overallProgress`
(`useState`), plus `workflowStarted` owned by Dashboard.  The observer
callbacks are modelled as counters: `completeCount` counts
`onWorkflowComplete` calls, `emptyNotice` counts the Dashboard
"No data available" notices.

`processStep` is an async closure: it captures the `steps` array of the
render in which it was created (the `snap` parameter below), while its
`setSteps(prev => ...)` functional updates always act on the current state.
The recursive auto-advance call resolves to the same closure, hence the same
snapshot.  Every `setState` is one observable intermediate state; the model
returns the final state together with that list of intermediate states. -/

inductive StepStatus where
  | idle
  | running
  | completed
  | failed
  deriving DecidableEq

structure WStep where
  id : Nat
  name : String
  status : StepStatus
  progress : Nat
  deriving DecidableEq

structure WState where
  steps : List WStep
  currentStepId : Option Nat
  workflowStarted : Bool
  overallProgress : Nat
  completeCount : Nat
  emptyNotice : Nat
  deriving DecidableEq

/-- Replace the element at an index by `f` of it (out-of-range: identity);
the model of `newSteps[stepIndex] = { ...newSteps[stepIndex], ... }`. -/
def modifyIdx {α : Type} (f : α → α) : Nat → List α → List α
  | _, [] => []
  | 0, x :: xs => f x :: xs
  | n + 1, x :: xs => x :: modifyIdx f n xs

/-- Sum of all step progress values (`steps.reduce((sum, step) => sum + step.progress, 0)`). -/
def progSum (l : List WStep) : Nat :=
  (l.map (fun st => st.progress)).sum

/-- A `setSteps` call, immediately followed by the overall-progress effect
(WorkflowProcessor.tsx lines 47-52): when the workflow has started,
`overallProgress` is recomputed as `Math.floor(totalProgress / steps.length)`. -/
def applySteps (s : WState) (f : List WStep → List WStep) : WState :=
  let st := f s.steps
  { s with
    steps := st
    overallProgress := if s.workflowStarted then progSum st / st.length else s.overallProgress }

/-- `setSteps` marking the target step running with progress 0 (lines 84-88). -/
def markRunning (idx : Nat) (s : WState) : WState :=
  applySteps s (modifyIdx (fun st => { st with status := StepStatus.running, progress := 0 }) idx)

/-- The terminal `setSteps` (lines 104-112): status from the executor outcome,
progress forced to 100 on success and retained on failure. -/
def markOutcome (success : Bool) (idx : Nat) (s : WState) : WState :=
  applySteps s (modifyIdx (fun st =>
    { st with
      status := if success then StepStatus.completed else StepStatus.failed
      progress := if success then 100 else st.progress }) idx)

/-- The fixed progress schedule `for (let i = 0; i <= 100; i += 10)` (line 91). -/
def progressTicks : List Nat :=
  [0, 10, 20, 30, 40, 50, 60, 70, 80, 90, 100]

/-- The progress loop (lines 91-98): one `setSteps` per tick, each one a
suspension point; returns the final state and the intermediate states. -/
def progressLoop (idx : Nat) : List Nat → WState → WState × List WState
  | [], s => (s, [])
  | i :: is, s =>
    let s' := applySteps s (modifyIdx (fun st => { st with progress := i }) idx)
    let rest := progressLoop idx is s'
    (rest.fst, s' :: rest.snd)

/-- The straight-line part of one `processStep` call once the step index is
known (WorkflowProcessor.tsx lines 79-112): record the current step, mark it
running, walk the progress schedule, apply the executor's outcome.  Returns
the post-outcome state and the intermediate states in order. -/
def stepBody (exec : Nat → Bool) (idx stepId : Nat) (s : WState) : WState × List WState :=
  let s1 := { s with currentStepId := some stepId }
  let s2 := markRunning idx s1
  let pl := progressLoop idx progressTicks s2
  let s4 := markOutcome (exec stepId) idx pl.fst
  (s4, s1 :: s2 :: pl.snd ++ [s4])

/-- `processStep` (WorkflowProcessor.tsx lines 70-142), fuelled so that the
recursion on `stepId + 1` is structural.  `snap` is the `steps` array the
closure captured; `exec` is the pluggable step executor standing in for the
`Math.random() > 0.1` draw (spec section 9 requires this abstraction).
Note the auto-advance guard (lines 124-126) filters and tests `snap`, not the
current state, and `stepId < snap.length` is line 122's `stepId < steps.length`.
The fuel-0 fallback is unreachable from the entry points below, which pass
fuel `snap.length + 2` while the chain advances only while `stepId < snap.length`. -/
def processStepF (exec : Nat → Bool) (dataLen : Nat) (snap : List WStep) :
    Nat → Nat → WState → WState × List WState
  | 0, _, s => (s, [])
  | fuel + 1, stepId, s =>
    if dataLen = 0 then
      let s' := { s with completeCount := s.completeCount + 1 }
      (s', [s'])
    else
      match snap.findIdx? (fun st => st.id == stepId) with
      | none => (s, [])
      | some idx =>
        let body := stepBody exec idx stepId s
        let s4 := body.fst
        if exec stepId = true ∧ stepId < snap.length then
          if (snap.filter (fun st => st.id < stepId + 1)).all
              (fun st => st.status == StepStatus.completed) then
            let s5 := { s4 with currentStepId := some (stepId + 1) }
            let rest := processStepF exec dataLen snap fuel (stepId + 1) s5
            (rest.fst, body.snd ++ s5 :: rest.snd)
          else
            let s6 := { s4 with currentStepId := none, completeCount := s4.completeCount + 1 }
            (s6, body.snd ++ [s6])
        else
          let s6 := { s4 with currentStepId := none, completeCount := s4.completeCount + 1 }
          (s6, body.snd ++ [s6])

/-- One `processStep(stepId)` call with its captured snapshot. -/
def processStep (exec : Nat → Bool) (dataLen : Nat) (snap : List WStep)
    (stepId : Nat) (s : WState) : WState × List WState :=
  processStepF exec dataLen snap (snap.length + 2) stepId s

/-- The reset `setSteps` of the start effect (lines 58-64): every step back to
idle with progress 0. -/
def resetSteps (s : WState) : WState :=
  applySteps s (fun steps =>
    steps.map (fun st => { st with status := StepStatus.idle, progress := 0 }))

/-- The start effect body (lines 55-67): reset all steps, then `processStep(1)`.
The closure's snapshot is the pre-reset `steps` of the render the effect ran in. -/
def startRun (exec : Nat → Bool) (dataLen : Nat) (s : WState) : WState × List WState :=
  let s0 := resetSteps s
  let run := processStep exec dataLen s.steps 1 s0
  (run.fst, s0 :: run.snd)

/-- `startWorkflow` (Dashboard.tsx lines 73-79) together with the effect
guard (WorkflowProcessor.tsx line 56): on an empty dataset only the
"No data available" notice fires; the Start button is disabled while
`workflowStarted` or while a step is current, and the effect itself requires
`currentStepId === null`; otherwise `workflowStarted` is set and the effect
runs the workflow. -/
def startWorkflow (exec : Nat → Bool) (dataLen : Nat) (s : WState) : WState × List WState :=
  if dataLen = 0 then ({ s with emptyNotice := s.emptyNotice + 1 }, [])
  else if s.workflowStarted = true ∨ s.currentStepId ≠ none then (s, [])
  else startRun exec dataLen { s with workflowStarted := true }

/-- The Rerun action as exposed by the UI: `rerunStep` is a bare
`processStep(stepId)` (WorkflowProcessor.tsx lines 145-147), reachable only
through the Rerun button, which is disabled while
`currentStepId !== null || data.length === 0` (second revision, lines
491-502); a disabled button cannot deliver the call, so those cases are
no-ops.  The snapshot of the freshly rendered closure is the current `steps`. -/
def rerunViaButton (exec : Nat → Bool) (dataLen : Nat) (s : WState) (stepId : Nat) :
    WState × List WState :=
  if s.currentStepId ≠ none ∨ dataLen = 0 then (s, [])
  else processStep exec dataLen s.steps stepId s

/-- The five workflow steps as constructed (WorkflowProcessor.tsx lines 35-41). -/
def initialSteps : List WStep :=
  [ ⟨1, "Fetching Fresh Desk Data", StepStatus.idle, 0⟩
  , ⟨2, "Comparing Upload to Fresh Desk", StepStatus.idle, 0⟩
  , ⟨3, "Generating New Tickets", StepStatus.idle, 0⟩
  , ⟨4, "Generating Child Tickets", StepStatus.idle, 0⟩
  , ⟨5, "Generating Report", StepStatus.idle, 0⟩
  ]

/-- The mounted component's initial state. -/
def initialState : WState :=
  { steps := initialSteps
    currentStepId := none
    workflowStarted := false
    overallProgress := 0
    completeCount := 0
    emptyNotice := 0 }

/-- Concrete rows for the sort example of claim C3: a single column `v`
holding 3, 1, null, 2 in document order. -/
def exR3 : Row := [("v", Value.num 3)]

def exR1 : Row := [("v", Value.num 1)]

def exRn : Row := [("v", Value.null)]

def exR2 : Row := [("v", Value.num 2)]

/-- Number of steps whose status is `running`. -/
def runningCount (l : List WStep) : Nat :=
  l.countP (fun st => st.status == StepStatus.running)

/-- Decidable check that the step ids are addressable: for every
`k` in `1..length`, `findIdx?` locates a step with id `k`. -/
def idsOk (l : List WStep) : Bool :=
  (List.range l.length).all (fun j => (l.findIdx? (fun st => st.id == j + 1)).isSome)

/-- The states the workflow system can be in: the initial mounted state, and
every intermediate or final state of a Start or Rerun action taken from a
reachable state (the single-threaded model of spec section 5: actions are
only delivered between runs, and the run's suspension points are the
intermediate states). -/
inductive Reachable (exec : Nat → Bool) (dataLen : Nat) : WState → Prop where
  | init : Reachable exec dataLen initialState
  | start_final {s : WState} :
      Reachable exec dataLen s → Reachable exec dataLen (startWorkflow exec dataLen s).fst
  | start_mid {s s' : WState} :
      Reachable exec dataLen s → s' ∈ (startWorkflow exec dataLen s).snd →
      Reachable exec dataLen s'
  | rerun_final {s : WState} (stepId : Nat) :
      Reachable exec dataLen s → Reachable exec dataLen (rerunViaButton exec dataLen s stepId).fst
  | rerun_mid {s s' : WState} (stepId : Nat) :
      Reachable exec dataLen s → s' ∈ (rerunViaButton exec dataLen s stepId).snd →
      Reachable exec dataLen s'

/-! # Theorems -/

/-! ## View engine: filtering (claims C2, C8, C10) -/

theorem rowPasses_eq_amended (row : Row) (fs : List ColumnFilter) (term : String) :
    rowPasses fs term row = amendedKeepsRow row fs term := by
  unfold rowPasses amendedKeepsRow
  congr 1
  · induction fs with
    | nil => rfl
    | cons f fs ih =>
      simp only [List.all_cons, ih]
      congr 1
      unfold matchesFilter
      cases h : f.value == "" <;> simp [h]
  · unfold passesSearch
    cases h : term == "" <;> simp [h]

/-- Claim C2, counterexample: on the row `{a: 0}` with the filter
`{column: a, value: "0"}` and no search term, the claim's keep-condition
(the stringified cell value `String(0) = "0"` contains `"0"`) holds, but the
code drops the row, because Dashboard.tsx line 50 coerces the falsy cell
value `0` to `""` before stringification (`String(row[filter.column] || "")`). -/
theorem c2_stringify_cex :
    ¬ ((([("a", Value.num 0)] : Row) ∈
          filteredData [[("a", Value.num 0)]] [⟨"a", "0"⟩] "") ↔
        specKeepsRow [("a", Value.num 0)] [⟨"a", "0"⟩] "" = true) := by
  decide

/-- Claim C2 as amended: a row is kept iff it is an input row and (a) for
every filter with non-empty value, `String(row[col] || "")` — the cell value
with null, false, 0, "" and missing cells coerced to the empty string —
contains the filter value case-insensitively (empty-valued filters pass,
all filters ANDed), and (b) when the search term is non-empty, some cell's
`String(value)` (null stringifies to "null") contains it case-insensitively. -/
theorem c2_filtering_amended (rows : List Row) (fs : List ColumnFilter)
    (term : String) (row : Row) :
    row ∈ filteredData rows fs term ↔
      row ∈ rows ∧ amendedKeepsRow row fs term = true := by
  unfold filteredData
  rw [List.mem_filter, rowPasses_eq_amended]

theorem c2_filtering_amended_witness :
    (([("a", Value.str "x")] : Row) ∈
        filteredData [[("a", Value.str "x")]] [⟨"a", "X"⟩] "") ↔
      (([("a", Value.str "x")] : Row) ∈ [[("a", Value.str "x")]] ∧
        amendedKeepsRow [("a", Value.str "x")] [⟨"a", "X"⟩] "" = true) :=
  c2_filtering_amended [[("a", Value.str "x")]] [⟨"a", "X"⟩] "" [("a", Value.str "x")]

/-- Claim C8: the projection output is a subsequence of the input rows, and
removing any single filter from the filter set yields a superset of the
output — the output under the full filter set is a subsequence of the output
under the set with its `i`-th filter removed. -/
theorem c8_monotone_relaxation (rows : List Row) (fs : List ColumnFilter)
    (term : String) (i : Nat) (h : i < fs.length) :
    (filteredData rows fs term).Sublist rows ∧
    (filteredData rows fs term).Sublist (filteredData rows (fs.eraseIdx i) term) := by
  constructor
  · exact List.filter_sublist rows
  · apply List.monotone_filter_right
    intro row hrow
    unfold rowPasses at hrow ⊢
    simp only [Bool.and_eq_true] at hrow ⊢
    refine ⟨?_, hrow.2⟩
    rw [List.all_eq_true] at hrow ⊢
    intro f hf
    exact hrow.1 f ((List.eraseIdx_sublist fs i).subset hf)

theorem c8_monotone_relaxation_witness :
    (filteredData [[("a", Value.str "x")]] [⟨"a", "x"⟩, ⟨"a", "y"⟩] "").Sublist
        [[("a", Value.str "x")]] ∧
    (filteredData [[("a", Value.str "x")]] [⟨"a", "x"⟩, ⟨"a", "y"⟩] "").Sublist
        (filteredData [[("a", Value.str "x")]]
          ([⟨"a", "x"⟩, ⟨"a", "y"⟩].eraseIdx 1) "") :=
  c8_monotone_relaxation [[("a", Value.str "x")]] [⟨"a", "x"⟩, ⟨"a", "y"⟩] "" 1
    (by decide)

/-- Claim C10: the preset quick filters append literal filter values
(`"[^]"`, `"^$"`, `"^[0-9]"`), the engine matches the `"^$"` preset as a
plain case-insensitive substring of the coerced cell string, and a cell that
is actually empty (empty string, null, or missing) never matches it. -/
theorem c10_presets_literal :
    (∀ (col : String) (fs : List ColumnFilter), col ≠ "" →
        applyPresetFilter col 0 fs = fs ++ [⟨col, "[^]"⟩] ∧
        applyPresetFilter col 1 fs = fs ++ [⟨col, "^$"⟩] ∧
        applyPresetFilter col 2 fs = fs ++ [⟨col, "^[0-9]"⟩]) ∧
    (∀ (row : Row) (col : String),
        matchesFilter row ⟨col, "^$"⟩
          = strIncludes (lowerStr (filterCellString row col)) (lowerStr "^$")) ∧
    (∀ (row : Row) (col : String),
        getCell row col = some (Value.str "") ∨ getCell row col = some Value.null ∨
          getCell row col = none →
        matchesFilter row ⟨col, "^$"⟩ = false) := by
  refine ⟨?_, ?_, ?_⟩
  · intro col fs h
    have hcol : (col == "") = false := by
      simpa using h
    refine ⟨?_, ?_, ?_⟩ <;> simp [applyPresetFilter, presetFilters, hcol]
  · intro row col
    rfl
  · intro row col h
    have hcell : filterCellString row col = "" := by
      unfold filterCellString
      rcases h with h | h | h <;> rw [h] <;> rfl
    have hm : matchesFilter row ⟨col, "^$"⟩
        = strIncludes (lowerStr (filterCellString row col)) (lowerStr "^$") := rfl
    rw [hm, hcell]
    decide

theorem c10_presets_literal_witness :
    applyPresetFilter "a" 1 [] = [(⟨"a", "^$"⟩ : ColumnFilter)] ∧
    matchesFilter [("a", Value.str "")] ⟨"a", "^$"⟩ = false :=
  ⟨(c10_presets_literal.1 "a" [] (by decide)).2.1,
   c10_presets_literal.2.2 [("a", Value.str "")] "a" (Or.inl (by decide))⟩

/-! ## View engine: sorting (claim C3) -/

/-- Claim C3: in the sort comparator, a null/missing value orders before any
present value ascending and after it descending; two numbers compare
numerically (by their difference's sign, per direction); all other present
pairs compare as lowercased strings via the locale comparison; and on the
column values `[3, 1, null, 2]` the ascending sort yields `[null, 1, 2, 3]`
and the descending sort `[3, 2, 1, null]`. -/
theorem c3_sort_comparator :
    (∀ (col : String) (a b : Row), isNullish (getCell a col) = true →
        isNullish (getCell b col) = false →
        rowCompare col SortDir.asc a b = -1 ∧ rowCompare col SortDir.desc a b = 1) ∧
    (∀ (col : String) (a b : Row), isNullish (getCell a col) = false →
        isNullish (getCell b col) = true →
        rowCompare col SortDir.asc a b = 1 ∧ rowCompare col SortDir.desc a b = -1) ∧
    (∀ (col : String) (a b : Row) (x y : Int),
        getCell a col = some (Value.num x) → getCell b col = some (Value.num y) →
        rowCompare col SortDir.asc a b = x - y ∧
        rowCompare col SortDir.desc a b = y - x) ∧
    (∀ (col : String) (a b : Row) (va vb : Value),
        getCell a col = some va → getCell b col = some vb →
        isNullish (some va) = false → isNullish (some vb) = false →
        (∀ x y : Int, ¬(va = Value.num x ∧ vb = Value.num y)) →
        rowCompare col SortDir.asc a b
            = charsCompare (lowerStr (stringOfValue va)).data
                (lowerStr (stringOfValue vb)).data ∧
        rowCompare col SortDir.desc a b
            = charsCompare (lowerStr (stringOfValue vb)).data
                (lowerStr (stringOfValue va)).data) ∧
    sortedData [exR3, exR1, exRn, exR2] (some "v") (some SortDir.asc)
        = [exRn, exR1, exR2, exR3] ∧
    sortedData [exR3, exR1, exRn, exR2] (some "v") (some SortDir.desc)
        = [exR3, exR2, exR1, exRn] := by
  refine ⟨?_, ?_, ?_, ?_, by decide, by decide⟩
  · intro col a b ha hb
    constructor <;> simp [rowCompare, ha]
  · intro col a b ha hb
    constructor <;> simp [rowCompare, ha, hb]
  · intro col a b x y ha hb
    constructor <;> simp [rowCompare, ha, hb, isNullish]
  · intro col a b va vb ha hb hnva hnvb hnn
    cases va <;> cases vb <;>
      first
        | exact absurd ⟨rfl, rfl⟩ (hnn _ _)
        | (constructor <;> simp_all [rowCompare, isNullish])

theorem c3_sort_comparator_witness :
    (rowCompare "v" SortDir.asc exRn exR1 = -1 ∧
      rowCompare "v" SortDir.desc exRn exR1 = 1) ∧
    (rowCompare "v" SortDir.asc exR3 exR1 = 3 - 1 ∧
      rowCompare "v" SortDir.desc exR3 exR1 = 1 - 3) :=
  ⟨c3_sort_comparator.1 "v" exRn exR1 (by decide) (by decide),
   c3_sort_comparator.2.2.1 "v" exR3 exR1 3 1 (by decide) (by decide)⟩

/-! ## Workflow engine: helper lemmas -/

theorem modifyIdx_id {α : Type} (i : Nat) (l : List α) :
    modifyIdx (fun a => a) i l = l := by
  induction l generalizing i with
  | nil => cases i <;> rfl
  | cons x xs ih =>
    cases i with
    | zero => rfl
    | succ n => simp only [modifyIdx, ih]

theorem modifyIdx_modifyIdx {α : Type} (f g : α → α) (i : Nat) (l : List α) :
    modifyIdx f i (modifyIdx g i l) = modifyIdx (fun a => f (g a)) i l := by
  induction l generalizing i with
  | nil => cases i <;> rfl
  | cons x xs ih =>
    cases i with
    | zero => rfl
    | succ n => simp only [modifyIdx, ih, List.cons.injEq, true_and]

theorem countP_modifyIdx_le {α : Type} (p : α → Bool) (f : α → α) (i : Nat) (l : List α) :
    (modifyIdx f i l).countP p ≤ l.countP p + 1 := by
  induction l generalizing i with
  | nil => cases i <;> simp [modifyIdx]
  | cons x xs ih =>
    cases i with
    | zero =>
      simp only [modifyIdx, List.countP_cons]
      split <;> split <;> omega
    | succ n =>
      simp only [modifyIdx, List.countP_cons]
      have := ih n
      split <;> omega

theorem countP_modifyIdx_of {α : Type} (p : α → Bool) (f : α → α) (i : Nat) (l : List α)
    (h : ∀ a, p (f a) = false) :
    (modifyIdx f i l).countP p ≤ l.countP p := by
  induction l generalizing i with
  | nil => cases i <;> simp [modifyIdx]
  | cons x xs ih =>
    cases i with
    | zero =>
      have hx := h x
      simp only [modifyIdx, List.countP_cons, hx, Bool.false_eq_true, if_false]
      split <;> omega
    | succ n =>
      simp only [modifyIdx, List.countP_cons]
      have := ih n
      split <;> omega

theorem applySteps_steps (s : WState) (f : List WStep → List WStep) :
    (applySteps s f).steps = f s.steps := rfl

theorem applySteps_currentStepId (s : WState) (f : List WStep → List WStep) :
    (applySteps s f).currentStepId = s.currentStepId := rfl

theorem applySteps_completeCount (s : WState) (f : List WStep → List WStep) :
    (applySteps s f).completeCount = s.completeCount := rfl

theorem applySteps_workflowStarted (s : WState) (f : List WStep → List WStep) :
    (applySteps s f).workflowStarted = s.workflowStarted := rfl

/-- Everything the later invariants need about the progress loop: it only
rewrites the step at `idx` (leaving every status unchanged), and it does not
touch `currentStepId`, `completeCount` or `workflowStarted`. -/
theorem progressLoop_spec (idx : Nat) (ticks : List Nat) :
    ∀ s : WState,
      ((progressLoop idx ticks s).fst.currentStepId = s.currentStepId ∧
       (progressLoop idx ticks s).fst.completeCount = s.completeCount ∧
       (progressLoop idx ticks s).fst.workflowStarted = s.workflowStarted ∧
       ∃ g : WStep → WStep, (∀ a, (g a).status = a.status) ∧
         (progressLoop idx ticks s).fst.steps = modifyIdx g idx s.steps) ∧
      ∀ s' ∈ (progressLoop idx ticks s).snd,
        s'.currentStepId = s.currentStepId ∧
        s'.workflowStarted = s.workflowStarted ∧
        ∃ g : WStep → WStep, (∀ a, (g a).status = a.status) ∧
          s'.steps = modifyIdx g idx s.steps := by
  induction ticks with
  | nil =>
    intro s
    refine ⟨⟨rfl, rfl, rfl, fun a => a, fun a => rfl, (modifyIdx_id idx s.steps).symm⟩, ?_⟩
    intro s' hs'
    simp [progressLoop] at hs'
  | cons i is ih =>
    intro s
    obtain ⟨⟨hc, hk, hw, g, hg, hsteps⟩, hmid⟩ :=
      ih (applySteps s (modifyIdx (fun st => { st with progress := i }) idx))
    constructor
    · refine ⟨hc, hk, hw, fun a => g { a with progress := i }, fun a => hg _, ?_⟩
      show (progressLoop idx is
          (applySteps s (modifyIdx (fun st => { st with progress := i }) idx))).fst.steps = _
      rw [hsteps, applySteps_steps]
      exact modifyIdx_modifyIdx g _ idx s.steps
    · intro s' hs'
      have hs2 : s' ∈ applySteps s (modifyIdx (fun st => { st with progress := i }) idx)
          :: (progressLoop idx is
            (applySteps s (modifyIdx (fun st => { st with progress := i }) idx))).snd := hs'
      rcases List.mem_cons.mp hs2 with hss | hss
      · subst hss
        exact ⟨rfl, rfl, fun st => { st with progress := i }, fun a => rfl, rfl⟩
      · obtain ⟨hc', hw', g', hg', hsteps'⟩ := hmid s' hss
        refine ⟨hc', hw', fun a => g' { a with progress := i }, fun a => hg' _, ?_⟩
        rw [hsteps', applySteps_steps]
        exact modifyIdx_modifyIdx g' _ idx s.steps

/-- The straight-line step body from a state with no running step: the final
state has no running step again, records the step as current, leaves the
completion counter and the started flag alone, and every intermediate state
has at most one running step and the step recorded as current. -/
theorem stepBody_spec (exec : Nat → Bool) (idx stepId : Nat) (s : WState)
    (h : runningCount s.steps = 0) :
    runningCount (stepBody exec idx stepId s).fst.steps = 0 ∧
    (stepBody exec idx stepId s).fst.currentStepId = some stepId ∧
    (stepBody exec idx stepId s).fst.completeCount = s.completeCount ∧
    (stepBody exec idx stepId s).fst.workflowStarted = s.workflowStarted ∧
    ∀ s' ∈ (stepBody exec idx stepId s).snd,
      runningCount s'.steps ≤ 1 ∧ s'.currentStepId = some stepId := by
  obtain ⟨⟨hc, hk, hw, g, hg, hsteps⟩, hmid⟩ :=
    progressLoop_spec idx progressTicks
      (markRunning idx { s with currentStepId := some stepId })
  have hruns : (markRunning idx { s with currentStepId := some stepId }).steps
      = modifyIdx (fun st => { st with status := StepStatus.running, progress := 0 }) idx
        s.steps := rfl
  have hfinsteps : (stepBody exec idx stepId s).fst.steps
      = modifyIdx
          (fun a =>
            { g { a with status := StepStatus.running, progress := 0 } with
              status := if exec stepId then StepStatus.completed else StepStatus.failed
              progress := if exec stepId then 100
                else (g { a with status := StepStatus.running, progress := 0 }).progress })
          idx s.steps := by
    show (markOutcome (exec stepId) idx
        (progressLoop idx progressTicks
          (markRunning idx { s with currentStepId := some stepId })).fst).steps = _
    rw [markOutcome, applySteps_steps, hsteps, hruns, modifyIdx_modifyIdx,
      modifyIdx_modifyIdx]
  have hfin0 : runningCount (stepBody exec idx stepId s).fst.steps = 0 := by
    rw [hfinsteps]
    have hle := countP_modifyIdx_of (fun st => st.status == StepStatus.running)
      (fun a =>
        { g { a with status := StepStatus.running, progress := 0 } with
          status := if exec stepId then StepStatus.completed else StepStatus.failed
          progress := if exec stepId then 100
            else (g { a with status := StepStatus.running, progress := 0 }).progress })
      idx s.steps (by intro a; cases exec stepId <;> rfl)
    unfold runningCount at h ⊢
    omega
  refine ⟨hfin0, ?_, ?_, ?_, ?_⟩
  · show (markOutcome (exec stepId) idx
        (progressLoop idx progressTicks
          (markRunning idx { s with currentStepId := some stepId })).fst).currentStepId = _
    rw [markOutcome, applySteps_currentStepId, hc]
    rfl
  · show (markOutcome (exec stepId) idx
        (progressLoop idx progressTicks
          (markRunning idx { s with currentStepId := some stepId })).fst).completeCount = _
    rw [markOutcome, applySteps_completeCount, hk]
    rfl
  · show (markOutcome (exec stepId) idx
        (progressLoop idx progressTicks
          (markRunning idx { s with currentStepId := some stepId })).fst).workflowStarted = _
    rw [markOutcome, applySteps_workflowStarted, hw]
    rfl
  · intro s' hs'
    have hs2 : s' ∈ ({ s with currentStepId := some stepId } : WState)
        :: markRunning idx { s with currentStepId := some stepId }
        :: ((progressLoop idx progressTicks
              (markRunning idx { s with currentStepId := some stepId })).snd
            ++ [(stepBody exec idx stepId s).fst]) := hs'
    rcases List.mem_cons.mp hs2 with hss | hss
    · subst hss
      refine ⟨?_, rfl⟩
      show runningCount s.steps ≤ 1
      omega
    rcases List.mem_cons.mp hss with hss' | hss'
    · subst hss'
      refine ⟨?_, rfl⟩
      show (modifyIdx (fun st => { st with status := StepStatus.running, progress := 0 }) idx
          s.steps).countP (fun st => st.status == StepStatus.running) ≤ 1
      have := countP_modifyIdx_le (fun st => st.status == StepStatus.running)
        (fun st => { st with status := StepStatus.running, progress := 0 }) idx s.steps
      unfold runningCount at h
      omega
    rcases List.mem_append.mp hss' with hss2 | hss2
    · obtain ⟨hc', hw', g', hg', hsteps'⟩ := hmid s' hss2
      refine ⟨?_, by rw [hc']; rfl⟩
      rw [show runningCount s'.steps = s'.steps.countP
          (fun st => st.status == StepStatus.running) from rfl, hsteps', hruns,
        modifyIdx_modifyIdx]
      have := countP_modifyIdx_le (fun st => st.status == StepStatus.running)
        (fun a => g' { a with status := StepStatus.running, progress := 0 }) idx s.steps
      unfold runningCount at h
      omega
    · have hone : s' = (stepBody exec idx stepId s).fst := by
        simpa using hss2
      subst hone
      refine ⟨by omega, ?_⟩
      show (markOutcome (exec stepId) idx
          (progressLoop idx progressTicks
            (markRunning idx { s with currentStepId := some stepId })).fst).currentStepId = _
      rw [markOutcome, applySteps_currentStepId, hc]
      rfl

theorem stepBody_completeCount (exec : Nat → Bool) (idx stepId : Nat) (s : WState) :
    (stepBody exec idx stepId s).fst.completeCount = s.completeCount := by
  obtain ⟨⟨hc, hk, hw, g, hg, hsteps⟩, hmid⟩ := progressLoop_spec idx progressTicks
    (markRunning idx { s with currentStepId := some stepId })
  show (markOutcome (exec stepId) idx
      (progressLoop idx progressTicks
        (markRunning idx { s with currentStepId := some stepId })).fst).completeCount = _
  rw [markOutcome, applySteps_completeCount, hk]
  rfl

/-- From a state with no running step, the whole `processStep` chain ends
with no running step, and every intermediate state has at most one running
step — with none at all whenever no step is recorded as current. -/
theorem processStepF_runningCount (exec : Nat → Bool) (dataLen : Nat) (snap : List WStep) :
    ∀ (fuel stepId : Nat) (s : WState), runningCount s.steps = 0 →
      runningCount (processStepF exec dataLen snap fuel stepId s).fst.steps = 0 ∧
      ∀ s' ∈ (processStepF exec dataLen snap fuel stepId s).snd,
        runningCount s'.steps ≤ 1 ∧
          (s'.currentStepId = none → runningCount s'.steps = 0) := by
  intro fuel
  induction fuel with
  | zero =>
    intro stepId s h
    refine ⟨h, ?_⟩
    intro s' hs'
    simp [processStepF] at hs'
  | succ fuel ih =>
    intro stepId s h
    by_cases hd : dataLen = 0
    · have heq : processStepF exec dataLen snap (fuel + 1) stepId s
          = ({ s with completeCount := s.completeCount + 1 },
             [{ s with completeCount := s.completeCount + 1 }]) := by
        simp [processStepF, hd]
      rw [heq]
      refine ⟨h, ?_⟩
      intro s' hs'
      have hone : s' = { s with completeCount := s.completeCount + 1 } := by
        simpa using hs'
      subst hone
      refine ⟨?_, fun _ => h⟩
      show runningCount s.steps ≤ 1
      omega
    · cases hf : snap.findIdx? (fun st => st.id == stepId) with
      | none =>
        have heq : processStepF exec dataLen snap (fuel + 1) stepId s = (s, []) := by
          simp [processStepF, hd, hf]
        rw [heq]
        exact ⟨h, by simp⟩
      | some idx =>
        obtain ⟨hb0, hbc, hbk, hbw, hbmid⟩ := stepBody_spec exec idx stepId s h
        by_cases hadv : exec stepId = true ∧ stepId < snap.length
        · by_cases hall : ((snap.filter (fun st => st.id < stepId + 1)).all
              (fun st => st.status == StepStatus.completed)) = true
          · have heq : processStepF exec dataLen snap (fuel + 1) stepId s
                = ((processStepF exec dataLen snap fuel (stepId + 1)
                      { (stepBody exec idx stepId s).fst with
                        currentStepId := some (stepId + 1) }).fst,
                   (stepBody exec idx stepId s).snd
                     ++ { (stepBody exec idx stepId s).fst with
                          currentStepId := some (stepId + 1) }
                       :: (processStepF exec dataLen snap fuel (stepId + 1)
                            { (stepBody exec idx stepId s).fst with
                              currentStepId := some (stepId + 1) }).snd) := by
              simp [processStepF, hd, hf, hadv, hall]
            obtain ⟨hrec0, hrecmid⟩ := ih (stepId + 1)
              { (stepBody exec idx stepId s).fst with currentStepId := some (stepId + 1) }
              (by show runningCount (stepBody exec idx stepId s).fst.steps = 0; exact hb0)
            rw [heq]
            refine ⟨hrec0, ?_⟩
            intro s' hs'
            rcases List.mem_append.mp hs' with hm | hm
            · obtain ⟨h1, h2⟩ := hbmid s' hm
              refine ⟨h1, ?_⟩
              intro hn
              rw [h2] at hn
              simp at hn
            · rcases List.mem_cons.mp hm with hm' | hm'
              · subst hm'
                refine ⟨?_, ?_⟩
                · show runningCount (stepBody exec idx stepId s).fst.steps ≤ 1
                  omega
                · intro hn
                  simp at hn
              · exact hrecmid s' hm'
          · have heq : processStepF exec dataLen snap (fuel + 1) stepId s
                = ({ (stepBody exec idx stepId s).fst with
                      currentStepId := none,
                      completeCount := (stepBody exec idx stepId s).fst.completeCount + 1 },
                   (stepBody exec idx stepId s).snd
                     ++ [{ (stepBody exec idx stepId s).fst with
                          currentStepId := none,
                          completeCount :=
                            (stepBody exec idx stepId s).fst.completeCount + 1 }]) := by
              simp [processStepF, hd, hf, hadv, hall]
            rw [heq]
            refine ⟨hb0, ?_⟩
            intro s' hs'
            rcases List.mem_append.mp hs' with hm | hm
            · obtain ⟨h1, h2⟩ := hbmid s' hm
              refine ⟨h1, ?_⟩
              intro hn
              rw [h2] at hn
              simp at hn
            · have hone : s' = { (stepBody exec idx stepId s).fst with
                  currentStepId := none,
                  completeCount := (stepBody exec idx stepId s).fst.completeCount + 1 } := by
                simpa using hm
              subst hone
              refine ⟨?_, fun _ => hb0⟩
              show runningCount (stepBody exec idx stepId s).fst.steps ≤ 1
              omega
        · have heq : processStepF exec dataLen snap (fuel + 1) stepId s
              = ({ (stepBody exec idx stepId s).fst with
                    currentStepId := none,
                    completeCount := (stepBody exec idx stepId s).fst.completeCount + 1 },
                 (stepBody exec idx stepId s).snd
                   ++ [{ (stepBody exec idx stepId s).fst with
                        currentStepId := none,
                        completeCount :=
                          (stepBody exec idx stepId s).fst.completeCount + 1 }]) := by
            simp [processStepF, hd, hf, hadv]
          rw [heq]
          refine ⟨hb0, ?_⟩
          intro s' hs'
          rcases List.mem_append.mp hs' with hm | hm
          · obtain ⟨h1, h2⟩ := hbmid s' hm
            refine ⟨h1, ?_⟩
            intro hn
            rw [h2] at hn
            simp at hn
          · have hone : s' = { (stepBody exec idx stepId s).fst with
                currentStepId := none,
                completeCount := (stepBody exec idx stepId s).fst.completeCount + 1 } := by
              simpa using hm
            subst hone
            refine ⟨?_, fun _ => hb0⟩
            show runningCount (stepBody exec idx stepId s).fst.steps ≤ 1
            omega

theorem findIdx_of_idsOk (snap : List WStep) (h : idsOk snap = true) (k : Nat)
    (h1 : 1 ≤ k) (h2 : k ≤ snap.length) :
    (snap.findIdx? (fun st => st.id == k)).isSome = true := by
  unfold idsOk at h
  rw [List.all_eq_true] at h
  have hm : k - 1 ∈ List.range snap.length := by
    rw [List.mem_range]
    omega
  have hk := h (k - 1) hm
  have hkk : k - 1 + 1 = k := by omega
  rwa [hkk] at hk

/-- With addressable step ids and enough fuel, every `processStep` chain
bumps the workflow-complete counter exactly once. -/
theorem processStepF_completeCount (exec : Nat → Bool) (dataLen : Nat) (snap : List WStep)
    (hids : idsOk snap = true) :
    ∀ (fuel stepId : Nat) (s : WState), 1 ≤ stepId → stepId ≤ snap.length →
      snap.length + 2 ≤ fuel + stepId →
      (processStepF exec dataLen snap fuel stepId s).fst.completeCount
        = s.completeCount + 1 := by
  intro fuel
  induction fuel with
  | zero =>
    intro stepId s h1 h2 h3
    omega
  | succ fuel ih =>
    intro stepId s h1 h2 h3
    by_cases hd : dataLen = 0
    · simp [processStepF, hd]
    · have hsome := findIdx_of_idsOk snap hids stepId h1 h2
      cases hf : snap.findIdx? (fun st => st.id == stepId) with
      | none =>
        rw [hf] at hsome
        simp at hsome
      | some idx =>
        by_cases hadv : exec stepId = true ∧ stepId < snap.length
        · obtain ⟨hsucc, hlt⟩ := hadv
          by_cases hall : ((snap.filter (fun st => st.id < stepId + 1)).all
              (fun st => st.status == StepStatus.completed)) = true
          · have heq : (processStepF exec dataLen snap (fuel + 1) stepId s).fst
                = (processStepF exec dataLen snap fuel (stepId + 1)
                    { (stepBody exec idx stepId s).fst with
                      currentStepId := some (stepId + 1) }).fst := by
              simp [processStepF, hd, hf, hsucc, hlt, hall]
            rw [heq, ih (stepId + 1) _ (by omega) (by omega) (by omega)]
            show (stepBody exec idx stepId s).fst.completeCount + 1 = s.completeCount + 1
            rw [stepBody_completeCount]
          · have heq : (processStepF exec dataLen snap (fuel + 1) stepId s).fst
                = { (stepBody exec idx stepId s).fst with
                    currentStepId := none,
                    completeCount := (stepBody exec idx stepId s).fst.completeCount + 1 } := by
              simp [processStepF, hd, hf, hsucc, hlt, hall]
            rw [heq]
            show (stepBody exec idx stepId s).fst.completeCount + 1 = s.completeCount + 1
            rw [stepBody_completeCount]
        · have heq : (processStepF exec dataLen snap (fuel + 1) stepId s).fst
              = { (stepBody exec idx stepId s).fst with
                  currentStepId := none,
                  completeCount := (stepBody exec idx stepId s).fst.completeCount + 1 } := by
            simp [processStepF, hd, hf, hadv]
          rw [heq]
          show (stepBody exec idx stepId s).fst.completeCount + 1 = s.completeCount + 1
          rw [stepBody_completeCount]

theorem runningCount_resetSteps (s : WState) : runningCount (resetSteps s).steps = 0 := by
  unfold runningCount
  have hsteps : (resetSteps s).steps
      = s.steps.map (fun st => { st with status := StepStatus.idle, progress := 0 }) := rfl
  rw [hsteps, List.countP_map]
  exact List.countP_eq_zero.mpr (fun a _ => by simp [Function.comp])

theorem applySteps_overall (s : WState) (f : List WStep → List WStep)
    (hw : s.workflowStarted = true) :
    (applySteps s f).overallProgress
      = progSum (applySteps s f).steps / (applySteps s f).steps.length := by
  simp [applySteps, hw]

theorem progressLoop_overall (idx : Nat) (ticks : List Nat) :
    ∀ s : WState, s.workflowStarted = true →
      s.overallProgress = progSum s.steps / s.steps.length →
      ((progressLoop idx ticks s).fst.workflowStarted = true ∧
       (progressLoop idx ticks s).fst.overallProgress
         = progSum (progressLoop idx ticks s).fst.steps
             / (progressLoop idx ticks s).fst.steps.length) ∧
      ∀ s' ∈ (progressLoop idx ticks s).snd,
        s'.overallProgress = progSum s'.steps / s'.steps.length := by
  induction ticks with
  | nil =>
    intro s hw h
    exact ⟨⟨hw, h⟩, by simp [progressLoop]⟩
  | cons i is ih =>
    intro s hw h
    have hw' : (applySteps s
        (modifyIdx (fun st => { st with progress := i }) idx)).workflowStarted = true := hw
    have h' := applySteps_overall s
      (modifyIdx (fun st => { st with progress := i }) idx) hw
    obtain ⟨hfst, hmid⟩ := ih _ hw' h'
    refine ⟨hfst, ?_⟩
    intro s' hs'
    have hs2 : s' ∈ applySteps s (modifyIdx (fun st => { st with progress := i }) idx)
        :: (progressLoop idx is
          (applySteps s (modifyIdx (fun st => { st with progress := i }) idx))).snd := hs'
    rcases List.mem_cons.mp hs2 with hss | hss
    · subst hss
      exact h'
    · exact hmid s' hss

theorem stepBody_overall (exec : Nat → Bool) (idx stepId : Nat) (s : WState)
    (hw : s.workflowStarted = true)
    (h : s.overallProgress = progSum s.steps / s.steps.length) :
    ((stepBody exec idx stepId s).fst.workflowStarted = true ∧
     (stepBody exec idx stepId s).fst.overallProgress
       = progSum (stepBody exec idx stepId s).fst.steps
           / (stepBody exec idx stepId s).fst.steps.length) ∧
    ∀ s' ∈ (stepBody exec idx stepId s).snd,
      s'.overallProgress = progSum s'.steps / s'.steps.length := by
  have hw1 : ({ s with currentStepId := some stepId } : WState).workflowStarted = true := hw
  have h1 : ({ s with currentStepId := some stepId } : WState).overallProgress
      = progSum ({ s with currentStepId := some stepId } : WState).steps
          / ({ s with currentStepId := some stepId } : WState).steps.length := h
  have hw2 : (markRunning idx { s with currentStepId := some stepId }).workflowStarted
      = true := hw
  have h2 := applySteps_overall { s with currentStepId := some stepId }
    (modifyIdx (fun st =>
      { st with status := StepStatus.running, progress := 0 }) idx) hw1
  obtain ⟨⟨hplw, hpl⟩, hplmid⟩ := progressLoop_overall idx progressTicks
    (markRunning idx { s with currentStepId := some stepId }) hw2 h2
  have h4 := applySteps_overall
    (progressLoop idx progressTicks
      (markRunning idx { s with currentStepId := some stepId })).fst
    (modifyIdx (fun st =>
      { st with
        status := if exec stepId then StepStatus.completed else StepStatus.failed
        progress := if exec stepId then 100 else st.progress }) idx) hplw
  refine ⟨⟨hplw, h4⟩, ?_⟩
  intro s' hs'
  have hs2 : s' ∈ ({ s with currentStepId := some stepId } : WState)
      :: markRunning idx { s with currentStepId := some stepId }
      :: ((progressLoop idx progressTicks
            (markRunning idx { s with currentStepId := some stepId })).snd
          ++ [(stepBody exec idx stepId s).fst]) := hs'
  rcases List.mem_cons.mp hs2 with hss | hss
  · subst hss
    exact h1
  rcases List.mem_cons.mp hss with hss' | hss'
  · subst hss'
    exact h2
  rcases List.mem_append.mp hss' with hm | hm
  · exact hplmid s' hm
  · have hone : s' = (stepBody exec idx stepId s).fst := by
      simpa using hm
    subst hone
    exact h4

/-- Along any `processStep` chain from a started state whose overall
progress equals the floored mean of the step progresses, every reached state
keeps that equation. -/
theorem processStepF_overall (exec : Nat → Bool) (dataLen : Nat) (snap : List WStep) :
    ∀ (fuel stepId : Nat) (s : WState), s.workflowStarted = true →
      s.overallProgress = progSum s.steps / s.steps.length →
      ((processStepF exec dataLen snap fuel stepId s).fst.workflowStarted = true ∧
       (processStepF exec dataLen snap fuel stepId s).fst.overallProgress
         = progSum (processStepF exec dataLen snap fuel stepId s).fst.steps
             / (processStepF exec dataLen snap fuel stepId s).fst.steps.length) ∧
      ∀ s' ∈ (processStepF exec dataLen snap fuel stepId s).snd,
        s'.overallProgress = progSum s'.steps / s'.steps.length := by
  intro fuel
  induction fuel with
  | zero =>
    intro stepId s hw h
    refine ⟨⟨hw, h⟩, ?_⟩
    intro s' hs'
    simp [processStepF] at hs'
  | succ fuel ih =>
    intro stepId s hw h
    by_cases hd : dataLen = 0
    · have heq : processStepF exec dataLen snap (fuel + 1) stepId s
          = ({ s with completeCount := s.completeCount + 1 },
             [{ s with completeCount := s.completeCount + 1 }]) := by
        simp [processStepF, hd]
      rw [heq]
      refine ⟨⟨hw, h⟩, ?_⟩
      intro s' hs'
      have hone : s' = { s with completeCount := s.completeCount + 1 } := by
        simpa using hs'
      subst hone
      exact h
    · cases hf : snap.findIdx? (fun st => st.id == stepId) with
      | none =>
        have heq : processStepF exec dataLen snap (fuel + 1) stepId s = (s, []) := by
          simp [processStepF, hd, hf]
        rw [heq]
        exact ⟨⟨hw, h⟩, by simp⟩
      | some idx =>
        obtain ⟨⟨hbw, hb⟩, hbmid⟩ := stepBody_overall exec idx stepId s hw h
        by_cases hadv : exec stepId = true ∧ stepId < snap.length
        · by_cases hall : ((snap.filter (fun st => st.id < stepId + 1)).all
              (fun st => st.status == StepStatus.completed)) = true
          · have heq : processStepF exec dataLen snap (fuel + 1) stepId s
                = ((processStepF exec dataLen snap fuel (stepId + 1)
                      { (stepBody exec idx stepId s).fst with
                        currentStepId := some (stepId + 1) }).fst,
                   (stepBody exec idx stepId s).snd
                     ++ { (stepBody exec idx stepId s).fst with
                          currentStepId := some (stepId + 1) }
                       :: (processStepF exec dataLen snap fuel (stepId + 1)
                            { (stepBody exec idx stepId s).fst with
                              currentStepId := some (stepId + 1) }).snd) := by
              simp [processStepF, hd, hf, hadv, hall]
            obtain ⟨hrec, hrecmid⟩ := ih (stepId + 1)
              { (stepBody exec idx stepId s).fst with currentStepId := some (stepId + 1) }
              (by show (stepBody exec idx stepId s).fst.workflowStarted = true; exact hbw)
              (by show (stepBody exec idx stepId s).fst.overallProgress
                    = progSum (stepBody exec idx stepId s).fst.steps
                        / (stepBody exec idx stepId s).fst.steps.length
                  exact hb)
            rw [heq]
            refine ⟨hrec, ?_⟩
            intro s' hs'
            rcases List.mem_append.mp hs' with hm | hm
            · exact hbmid s' hm
            · rcases List.mem_cons.mp hm with hm' | hm'
              · subst hm'
                exact hb
              · exact hrecmid s' hm'
          · have heq : processStepF exec dataLen snap (fuel + 1) stepId s
                = ({ (stepBody exec idx stepId s).fst with
                      currentStepId := none,
                      completeCount := (stepBody exec idx stepId s).fst.completeCount + 1 },
                   (stepBody exec idx stepId s).snd
                     ++ [{ (stepBody exec idx stepId s).fst with
                          currentStepId := none,
                          completeCount :=
                            (stepBody exec idx stepId s).fst.completeCount + 1 }]) := by
              simp [processStepF, hd, hf, hadv, hall]
            rw [heq]
            refine ⟨⟨hbw, hb⟩, ?_⟩
            intro s' hs'
            rcases List.mem_append.mp hs' with hm | hm
            · exact hbmid s' hm
            · have hone : s' = { (stepBody exec idx stepId s).fst with
                  currentStepId := none,
                  completeCount := (stepBody exec idx stepId s).fst.completeCount + 1 } := by
                simpa using hm
              subst hone
              exact hb
        · have heq : processStepF exec dataLen snap (fuel + 1) stepId s
              = ({ (stepBody exec idx stepId s).fst with
                    currentStepId := none,
                    completeCount := (stepBody exec idx stepId s).fst.completeCount + 1 },
                 (stepBody exec idx stepId s).snd
                   ++ [{ (stepBody exec idx stepId s).fst with
                        currentStepId := none,
                        completeCount :=
                          (stepBody exec idx stepId s).fst.completeCount + 1 }]) := by
            simp [processStepF, hd, hf, hadv]
          rw [heq]
          refine ⟨⟨hbw, hb⟩, ?_⟩
          intro s' hs'
          rcases List.mem_append.mp hs' with hm | hm
          · exact hbmid s' hm
          · have hone : s' = { (stepBody exec idx stepId s).fst with
                currentStepId := none,
                completeCount := (stepBody exec idx stepId s).fst.completeCount + 1 } := by
              simpa using hm
            subst hone
            exact hb

/-- Single-runner invariant over all reachable states: at most one step is
running, and none at all when no step is recorded as current. -/
theorem reachable_running (exec : Nat → Bool) (dataLen : Nat) :
    ∀ s : WState, Reachable exec dataLen s →
      runningCount s.steps ≤ 1 ∧ (s.currentStepId = none → runningCount s.steps = 0) := by
  intro s h
  induction h with
  | init =>
    exact ⟨by decide, fun _ => by decide⟩
  | @start_final t h ih =>
    by_cases hd : dataLen = 0
    · have heq : (startWorkflow exec dataLen t).fst
          = { t with emptyNotice := t.emptyNotice + 1 } := by
        simp [startWorkflow, hd]
      rw [heq]
      exact ⟨ih.1, fun hn => ih.2 hn⟩
    · by_cases hg : t.workflowStarted = true ∨ t.currentStepId ≠ none
      · have heq : (startWorkflow exec dataLen t).fst = t := by
          simp [startWorkflow, hd, hg]
        rw [heq]
        exact ih
      · have heq : (startWorkflow exec dataLen t).fst
            = (startRun exec dataLen { t with workflowStarted := true }).fst := by
          simp [startWorkflow, hd, hg]
        rw [heq]
        obtain ⟨h0, hmid⟩ := processStepF_runningCount exec dataLen
          ({ t with workflowStarted := true } : WState).steps
          (({ t with workflowStarted := true } : WState).steps.length + 2) 1
          (resetSteps { t with workflowStarted := true })
          (runningCount_resetSteps _)
        have h0' : runningCount
            (startRun exec dataLen { t with workflowStarted := true }).fst.steps = 0 := h0
        exact ⟨by omega, fun _ => h0'⟩
  | @start_mid t s' h hmem ih =>
    by_cases hd : dataLen = 0
    · have hnil : (startWorkflow exec dataLen t).snd = [] := by
        simp [startWorkflow, hd]
      rw [hnil] at hmem
      simp at hmem
    · by_cases hg : t.workflowStarted = true ∨ t.currentStepId ≠ none
      · have hnil : (startWorkflow exec dataLen t).snd = [] := by
          simp [startWorkflow, hd, hg]
        rw [hnil] at hmem
        simp at hmem
      · have hsnd : (startWorkflow exec dataLen t).snd
            = resetSteps { t with workflowStarted := true }
              :: (processStepF exec dataLen
                  ({ t with workflowStarted := true } : WState).steps
                  (({ t with workflowStarted := true } : WState).steps.length + 2) 1
                  (resetSteps { t with workflowStarted := true })).snd := by
          simp [startWorkflow, startRun, processStep, hd, hg]
        rw [hsnd] at hmem
        obtain ⟨h0, hmid⟩ := processStepF_runningCount exec dataLen
          ({ t with workflowStarted := true } : WState).steps
          (({ t with workflowStarted := true } : WState).steps.length + 2) 1
          (resetSteps { t with workflowStarted := true })
          (runningCount_resetSteps _)
        rcases List.mem_cons.mp hmem with hss | hss
        · subst hss
          have hz := runningCount_resetSteps { t with workflowStarted := true }
          exact ⟨by omega, fun _ => hz⟩
        · exact hmid s' hss
  | @rerun_final t stepId h ih =>
    by_cases hg : t.currentStepId ≠ none ∨ dataLen = 0
    · have heq : (rerunViaButton exec dataLen t stepId).fst = t := by
        simp [rerunViaButton, hg]
      rw [heq]
      exact ih
    · have heq : (rerunViaButton exec dataLen t stepId).fst
          = (processStepF exec dataLen t.steps (t.steps.length + 2) stepId t).fst := by
        simp [rerunViaButton, processStep, hg]
      rw [heq]
      have hcur : t.currentStepId = none := by
        rcases not_or.mp hg with ⟨hA, _⟩
        exact not_not.mp hA
      obtain ⟨h0, hmid⟩ := processStepF_runningCount exec dataLen t.steps
        (t.steps.length + 2) stepId t (ih.2 hcur)
      exact ⟨by omega, fun _ => h0⟩
  | @rerun_mid t s' stepId h hmem ih =>
    by_cases hg : t.currentStepId ≠ none ∨ dataLen = 0
    · have hnil : (rerunViaButton exec dataLen t stepId).snd = [] := by
        simp [rerunViaButton, hg]
      rw [hnil] at hmem
      simp at hmem
    · have hsnd : (rerunViaButton exec dataLen t stepId).snd
          = (processStepF exec dataLen t.steps (t.steps.length + 2) stepId t).snd := by
        simp [rerunViaButton, processStep, hg]
      rw [hsnd] at hmem
      have hcur : t.currentStepId = none := by
        rcases not_or.mp hg with ⟨hA, _⟩
        exact not_not.mp hA
      obtain ⟨h0, hmid⟩ := processStepF_runningCount exec dataLen t.steps
        (t.steps.length + 2) stepId t (ih.2 hcur)
      exact hmid s' hmem

/-! ## Claim theorems: workflow engine -/

/-- Claim C5: on an empty Row Store, `runStep` signals workflow completion
immediately and changes nothing else — no step is marked running, no status
or progress changes (WorkflowProcessor.tsx lines 71-74) — and `start()` only
raises the "No data available" notice (Dashboard.tsx lines 73-79), leaving
every step exactly as it was, in particular never out of idle. -/
theorem c5_empty_dataset (exec : Nat → Bool) (snap : List WStep) (stepId : Nat)
    (s : WState) :
    processStep exec 0 snap stepId s
      = ({ s with completeCount := s.completeCount + 1 },
         [{ s with completeCount := s.completeCount + 1 }]) ∧
    startWorkflow exec 0 s = ({ s with emptyNotice := s.emptyNotice + 1 }, []) := by
  constructor
  · show processStepF exec 0 snap (snap.length + 1 + 1) stepId s = _
    simp [processStepF]
  · simp [startWorkflow]

/-- Claim C6: a Rerun delivered while a step is current (or with no data) is
a no-op — the button guard `currentStepId !== null || data.length === 0`
rejects it — and every reachable state of the system has at most one step
with status running. -/
theorem c6_rerun_guard_single_runner (exec : Nat → Bool) (dataLen : Nat) :
    (∀ (s : WState) (stepId : Nat), s.currentStepId ≠ none →
        rerunViaButton exec dataLen s stepId = (s, [])) ∧
    (∀ (s : WState) (stepId : Nat), dataLen = 0 →
        rerunViaButton exec dataLen s stepId = (s, [])) ∧
    ∀ s : WState, Reachable exec dataLen s → runningCount s.steps ≤ 1 := by
  refine ⟨?_, ?_, ?_⟩
  · intro s stepId h
    simp [rerunViaButton, h]
  · intro s stepId h
    simp [rerunViaButton, h]
  · intro s h
    exact (reachable_running exec dataLen s h).1

theorem c6_rerun_guard_single_runner_witness :
    rerunViaButton (fun _ => true) 1 { initialState with currentStepId := some 1 } 2
        = ({ initialState with currentStepId := some 1 }, []) ∧
    runningCount initialState.steps ≤ 1 :=
  ⟨(c6_rerun_guard_single_runner (fun _ => true) 1).1
      { initialState with currentStepId := some 1 } 2 (by decide),
   (c6_rerun_guard_single_runner (fun _ => true) 1).2.2 initialState Reachable.init⟩

/-- Claim C7: every run the start effect begins fires the workflow-complete
notification exactly once — the completion counter ends exactly one higher —
whatever the executor decides and even on an empty dataset. -/
theorem c7_complete_fires_once (exec : Nat → Bool) (dataLen : Nat) (s : WState)
    (hids : idsOk s.steps = true) (hlen : 1 ≤ s.steps.length) :
    (startRun exec dataLen s).fst.completeCount = s.completeCount + 1 := by
  have h := processStepF_completeCount exec dataLen s.steps hids
    (s.steps.length + 2) 1 (resetSteps s) (by omega) (by omega) (by omega)
  have heq : (startRun exec dataLen s).fst.completeCount
      = (processStepF exec dataLen s.steps (s.steps.length + 2) 1
          (resetSteps s)).fst.completeCount := rfl
  rw [heq, h]
  rfl

theorem c7_complete_fires_once_witness :
    (startRun (fun _ => true) 1 initialState).fst.completeCount
      = initialState.completeCount + 1 :=
  c7_complete_fires_once (fun _ => true) 1 initialState (by decide) (by decide)

/-- Claim C9: whenever a step's progress changes during a started run, the
recomputed `overallProgress` equals the floored arithmetic mean of all step
progress values — `Math.floor(totalProgress / steps.length)` is Nat division
here — in the final state and in every intermediate state of the run. -/
theorem c9_overall_progress (exec : Nat → Bool) (dataLen : Nat) (s : WState)
    (hw : s.workflowStarted = true) :
    ((startRun exec dataLen s).fst.overallProgress
       = progSum (startRun exec dataLen s).fst.steps
           / (startRun exec dataLen s).fst.steps.length) ∧
    ∀ s' ∈ (startRun exec dataLen s).snd,
      s'.overallProgress = progSum s'.steps / s'.steps.length := by
  have h0w : (resetSteps s).workflowStarted = true := hw
  have h0 := applySteps_overall s
    (fun steps =>
      steps.map (fun st => { st with status := StepStatus.idle, progress := 0 }))
    hw
  obtain ⟨⟨hfw, hf⟩, hmid⟩ := processStepF_overall exec dataLen s.steps
    (s.steps.length + 2) 1 (resetSteps s) h0w h0
  refine ⟨hf, ?_⟩
  intro s' hs'
  have hs2 : s' ∈ resetSteps s
      :: (processStepF exec dataLen s.steps (s.steps.length + 2) 1
          (resetSteps s)).snd := hs'
  rcases List.mem_cons.mp hs2 with hss | hss
  · subst hss
    exact h0
  · exact hmid s' hss

theorem c9_overall_progress_witness :
    (startRun (fun _ => true) 1
        { initialState with workflowStarted := true }).fst.overallProgress
      = progSum (startRun (fun _ => true) 1
            { initialState with workflowStarted := true }).fst.steps
          / (startRun (fun _ => true) 1
              { initialState with workflowStarted := true }).fst.steps.length :=
  (c9_overall_progress (fun _ => true) 1
    { initialState with workflowStarted := true } rfl).1

/-- Claim C1 (code bug): from a fresh mount with one data row and an executor
that succeeds every step, `start()` runs step 1 to completion and then halts
— steps 2..5 stay idle, `currentStepId` is cleared and the terminal
notification fires — instead of auto-advancing to `runStep(2)`.  The
all-predecessors-completed check (WorkflowProcessor.tsx lines 124-126) reads
the `steps` array the `processStep` closure captured when the run began, in
which step 1 is still idle, so it fails even though step 1 really completed. -/
theorem c1_stale_snapshot_halts_auto_advance :
    ((startWorkflow (fun _ => true) 1 initialState).fst.steps.map
        (fun st => (st.id, st.status)))
      = [(1, StepStatus.completed), (2, StepStatus.idle), (3, StepStatus.idle),
         (4, StepStatus.idle), (5, StepStatus.idle)] ∧
    (startWorkflow (fun _ => true) 1 initialState).fst.currentStepId = none ∧
    (startWorkflow (fun _ => true) 1 initialState).fst.completeCount = 1 := by
  decide

/-- Claim C4 (code bug): with a deterministic executor failing exactly step 2,
a fresh start never reaches step 2 — it halts after step 1 with step 2 still
idle (the stale-snapshot check of C1), so no start-run can exhibit the
specified step-2 failure — while for the failure that is reachable (step 1)
the claimed behavior holds: status failed, progress retained at 100, all
later steps idle, `currentStepId` cleared, completion fired once. -/
theorem c4_failure_step_eval :
    (((startWorkflow (fun k => !(k == 2)) 1 initialState).fst.steps.map
        (fun st => (st.id, st.status, st.progress)))
      = [(1, StepStatus.completed, 100), (2, StepStatus.idle, 0),
         (3, StepStatus.idle, 0), (4, StepStatus.idle, 0), (5, StepStatus.idle, 0)] ∧
     (startWorkflow (fun k => !(k == 2)) 1 initialState).fst.currentStepId = none) ∧
    (((startWorkflow (fun k => !(k == 1)) 1 initialState).fst.steps.map
        (fun st => (st.id, st.status, st.progress)))
      = [(1, StepStatus.failed, 100), (2, StepStatus.idle, 0),
         (3, StepStatus.idle, 0), (4, StepStatus.idle, 0), (5, StepStatus.idle, 0)] ∧
     (startWorkflow (fun k => !(k == 1)) 1 initialState).fst.currentStepId = none ∧
     (startWorkflow (fun k => !(k == 1)) 1 initialState).fst.completeCount = 1) := by
  decide

end Sidekick
